import Mathlib

/-!
Shallow embedding of the Improv Serial protocol codec (`src/improv.cpp`)
and verification of the specification claims.

Conventions of the embedding:
* Bytes are `Nat` values; C++ casts to `uint8_t` are `% 256`, `uint32_t`
  accumulation is `% 2^32`, and `size_t` subtraction is the wrapping
  `sizeTSub` below.
* Raw memory (a `const uint8_t *`) is a total function `Nat → Nat`; the
  question of which indices the code actually dereferences is modelled
  separately by `parseReadsNoCheck` / `segLoopReads`.
* The C++ checksum loop in `parse_improv_data` uses a `uint8_t` loop
  counter and therefore need not terminate; it is modelled by the
  fuel-based `csumLoopRun`, with `none` standing for a run that has not
  finished within the given fuel.  `parse_improv_data` calls it with fuel
  256, which is enough for every terminating run of the C++ loop
  (`csumLoopRun_eq_sum`), while a run of the C++ loop that diverges
  returns `none` for *every* fuel (`csumLoopRun_none_of_ge`), so `none`
  in the result of `parse_improv_data` is exactly divergence of the C++
  function.
-/

namespace Improv

/-- Modelled from the spec: the header `improv.h` is not part of the

sources; the spec only fixes an "unknown" sentinel encoded as a single
byte.  Value as in the published Improv protocol. -/
def UNKNOWN : Nat := 0x00

/-- Modelled from the spec: Wi-Fi settings command tag (from the missing

`improv.h`, published Improv protocol value). -/
def WIFI_SETTINGS : Nat := 0x01

/-- Modelled from the spec: the generic custom/RPC command tag added by

this fork (from the missing `improv.h`); its concrete value is not used
by any claim beyond being a fixed byte distinct from the others. -/
def CUSTOM : Nat := 0x05

/-- Modelled from the spec: "bad checksum" sentinel (from the missing

`improv.h`, published Improv protocol value). -/
def BAD_CHECKSUM : Nat := 0xFF

/-- Modelled from the spec: the single-byte protocol version constant

(from the missing `improv.h`, published Improv protocol value). -/
def IMPROV_SERIAL_VERSION : Nat := 1

/-- Modelled from the spec: the stream frame type marking an RPC frame

(from the missing `improv.h`, published Improv protocol value). -/
def TYPE_RPC : Nat := 0x03

/-- Modelled from the spec: the error code passed to `on_error` on a

stream checksum mismatch (from the missing `improv.h`). -/
def ERROR_INVALID_RPC : Nat := 1

/-- `struct ImprovCommand { Command command; std::vector<std::vector<uint8_t>> data; }`

(the command tag and the ordered list of decoded data segments). -/
structure ImprovCommand where
  command : Nat
  data : List (List Nat) := []
  deriving Repr, DecidableEq

/-- C++ `size_t` subtraction `a - b` (wrap-around modulo `2^64`),

for `a < 2^64` and `b ≤ 2^64`. -/
def sizeTSub (a b : Nat) : Nat := (a + (2 ^ 64 - b)) % 2 ^ 64

/-- `std::vector<uint8_t> segment(data + start, data + start + len)`:

the `len` bytes of memory starting at index `start`. -/
def segment (data : Nat → Nat) (start len : Nat) : List Nat :=
  (List.range len).map fun j => data (start + j)

/-- The `while (position < length - checksum_offset)` segment loop of

`parse_improv_data` (improv.cpp lines 38–66), for commands with data
segments.  `limit` is `length - checksum_offset`, `cmd` the command
byte, `acc` the segments pushed onto `improv_command.data` so far.
On a framing violation the C++ sets `improv_command.command = UNKNOWN`
and returns the struct as it stands, i.e. with the segments pushed so
far still in `data`. -/
def segLoop (data : Nat → Nat) (limit cmd : Nat) (position : Nat)
    (acc : List (List Nat)) : ImprovCommand :=
  if _h : position < limit then
    -- `if (position + 1 > length - checksum_offset)` (unreachable given the guard)
    if position + 1 > limit then ⟨UNKNOWN, acc⟩
    else
      let segment_length := data position
      -- `if (segment_length > (length - checksum_offset - position - 1))`
      if segment_length > limit - position - 1 then ⟨UNKNOWN, acc⟩
      else
        let segment_end := position + 1 + segment_length
        -- `if (segment_end > length - checksum_offset)`
        if segment_end > limit then ⟨UNKNOWN, acc⟩
        else
          segLoop data limit cmd segment_end
            (acc ++ [segment data (position + 1) segment_length])
  else ⟨cmd, acc⟩
  termination_by limit - position
  decreasing_by simp_wf; omega

/-- The checksum loop `for (uint8_t i = 0; i < length - 1; i++)

calculated_checksum += data[i];` of `parse_improv_data` (lines 25–28).
`bound` is `length - 1` (a `size_t`), `i` the `uint8_t` counter (so the
increment wraps at 256), `acc` the `uint32_t` accumulator.  Fuel-based:
`none` means the loop has not exited within `fuel` iterations. -/
def csumLoopRun (data : Nat → Nat) (bound : Nat) :
    Nat → Nat → Nat → Option Nat
  | 0, _, _ => none
  | fuel + 1, i, acc =>
    if i < bound then
      csumLoopRun data bound fuel ((i + 1) % 256) ((acc + data i) % 2 ^ 32)
    else some acc

/-- Lines 36–72 of `parse_improv_data`: the special handling for

commands with data segments, and the plain `{command, []}` result for
every other command. -/
def parseSegmentsOrSingle (data : Nat → Nat) (length checksum_offset : Nat) :
    ImprovCommand :=
  let command := data 0
  if command = WIFI_SETTINGS ∨ command = CUSTOM then
    segLoop data (length - checksum_offset) command 2 []
  else ⟨command, []⟩

/-- `ImprovCommand parse_improv_data(const uint8_t *data, size_t length,

bool check_checksum)` (improv.cpp lines 10–73).  `none` models a call
that never returns (the checksum loop diverging, see `csumLoopRun`). -/
def parse_improv_data (data : Nat → Nat) (length : Nat)
    (check_checksum : Bool) : Option ImprovCommand :=
  let data_length := data 1
  let checksum_offset : Nat := if check_checksum then 1 else 0
  -- `if (data_length != length - 2 - checksum_offset)`
  if data_length ≠ sizeTSub length (2 + checksum_offset) then
    some ⟨UNKNOWN, []⟩
  else if check_checksum then
    -- `uint8_t checksum = data[length - 1];` and the summation loop
    match csumLoopRun data (length - 1) 256 0 0 with
    | none => none
    | some calculated =>
      -- `if ((uint8_t) calculated_checksum != checksum)`
      if calculated % 256 ≠ data (length - 1) then some ⟨BAD_CHECKSUM, []⟩
      else some (parseSegmentsOrSingle data length checksum_offset)
  else some (parseSegmentsOrSingle data length checksum_offset)

/-- The `std::vector` overload `parse_improv_data(const std::vector<uint8_t>

&data, bool check_checksum)` (lines 6–8): `data.data()` with
`data.size()`.  Reads past the end of the vector (which the C++ leaves
undefined) are modelled as 0. -/
def parse_improv_data_vec (v : List Nat) (check_checksum : Bool) :
    Option ImprovCommand :=
  parse_improv_data (fun i => v.getD i 0) v.length check_checksum

/-- The memory indices the segment loop of `parse_improv_data`

dereferences, in order: each iteration reads the length byte at
`position` and, if the bounds checks pass, the `segment_length` bytes
of the segment body. -/
def segLoopReads (data : Nat → Nat) (limit : Nat) (position : Nat) :
    List Nat :=
  if _h : position < limit then
    if position + 1 > limit then []
    else
      let segment_length := data position
      if segment_length > limit - position - 1 then [position]
      else
        let segment_end := position + 1 + segment_length
        if segment_end > limit then [position]
        else
          (position :: (List.range segment_length).map fun j => position + 1 + j)
            ++ segLoopReads data limit segment_end
  else []
  termination_by limit - position
  decreasing_by simp_wf; omega

/-- The memory indices `parse_improv_data(data, length, false)`

dereferences, in order: `data[0]` and `data[1]` are read
unconditionally (lines 12–13) before any validation, then, if the
length check passes and the command has data segments, the segment
loop reads follow. -/
def parseReadsNoCheck (data : Nat → Nat) (length : Nat) : List Nat :=
  [0, 1] ++
    if data 1 ≠ sizeTSub length 2 then []
    else if data 0 = WIFI_SETTINGS ∨ data 0 = CUSTOM then
      segLoopReads data length 2
    else []

/-- Result of one `parse_improv_serial_byte` call: the C++ returns a

`bool` and interacts through the two callbacks, modelled here
explicitly: `ret` is the returned bool, `cb` records the argument of
the `callback(command)` invocation if one happened, `err` the argument
of the `on_error(...)` invocation if one happened. -/
structure SerialResult where
  ret : Bool
  cb : Option ImprovCommand := none
  err : Option Nat := none
  deriving Repr, DecidableEq

/-- The checksum accumulation of `parse_improv_serial_byte`

(lines 103–105): `uint8_t checksum = 0; for (size_t i = 0; i < position;
i++) checksum += buffer[i];` — a `uint8_t` accumulator (wraps at 256)
driven by a `size_t` counter. -/
def serialChecksum (buffer : Nat → Nat) (position : Nat) : Nat :=
  ((List.range position).map buffer).foldl (fun acc b => (acc + b) % 256) 0

/-- `bool parse_improv_serial_byte(size_t position, uint8_t byte,

const uint8_t *buffer, callback, on_error)` (improv.cpp lines 75–119).
Byte literals: 73 'I', 77 'M', 80 'P', 82 'R', 79 'O', 86 'V'.
The `callback` is passed in as a function; on the RPC path the C++
runs `parse_improv_data(&buffer[9], data_len, false)` and returns
`callback(command)`.  A `check_checksum = false` parse always
terminates (`parse_improv_data_nocheck_isSome`), so the `none` arm of
the match below is unreachable. -/
def parse_improv_serial_byte (position byte : Nat) (buffer : Nat → Nat)
    (callback : ImprovCommand → Bool) : SerialResult :=
  if position = 0 then ⟨byte == 73, none, none⟩
  else if position = 1 then ⟨byte == 77, none, none⟩
  else if position = 2 then ⟨byte == 80, none, none⟩
  else if position = 3 then ⟨byte == 82, none, none⟩
  else if position = 4 then ⟨byte == 79, none, none⟩
  else if position = 5 then ⟨byte == 86, none, none⟩
  else if position = 6 then ⟨byte == IMPROV_SERIAL_VERSION, none, none⟩
  else if position ≤ 8 then ⟨true, none, none⟩
  else
    let type := buffer 7
    let data_len := buffer 8
    if position ≤ 8 + data_len then ⟨true, none, none⟩
    else if position = 8 + data_len + 1 then
      if serialChecksum buffer position ≠ byte then
        ⟨false, none, some ERROR_INVALID_RPC⟩
      else if type = TYPE_RPC then
        match parse_improv_data (fun i => buffer (9 + i)) data_len false with
        | some command => ⟨callback command, some command, none⟩
        | none => ⟨false, none, none⟩
      else ⟨false, none, none⟩
    else ⟨false, none, none⟩

/-- The per-field wire bytes written by the copy loop of

`build_rpc_response` (lines 138–143): for each field, one length byte
`static_cast<uint8_t>(str.length())` followed by the field bytes. -/
def flatSegs (datum : List (List Nat)) : List Nat :=
  datum.flatMap fun s => (s.length % 256) :: s

/-- `std::vector<uint8_t> build_rpc_response(Command command,

const std::vector<std::string> &datum, bool add_checksum)`
(improv.cpp lines 121–158).  The vector is created with
`frame_length = 3 + datum.size() + Σ lengths` zero bytes; `out[0]` is
the command byte, `out[1] = static_cast<uint8_t>(pos - 2)` where `pos`
ends at `frame_length - 1`, the fields go in between, and the last
byte is either the checksum `(uint32_t sum of all bytes) & 0xFF` (the
checksum slot itself still being 0 when summed) or stays 0. -/
def build_rpc_response (command : Nat) (datum : List (List Nat))
    (add_checksum : Bool) : List Nat :=
  let body := (command % 256)
    :: ((datum.length + (datum.map List.length).sum) % 256)
    :: flatSegs datum
  body ++ [if add_checksum then body.sum % 2 ^ 32 % 256 else 0]

/-- Flip bit `b` of the byte at memory index `k`. -/
def flipBit (data : Nat → Nat) (k b : Nat) : Nat → Nat :=
  fun i => if i = k then data i ^^^ 2 ^ b else data i

/-- Sum of the first `n` bytes of a memory region (the value the

checksum loops accumulate, before truncation). -/
def sumRange (data : Nat → Nat) (n : Nat) : Nat :=
  ((List.range n).map data).sum

/-! ### Helper lemmas -/

theorem range_map_getD (l : List Nat) :
    (List.range l.length).map (fun i => l.getD i 0) = l := by
  induction l with
  | nil => rfl
  | cons a t ih =>
    rw [List.length_cons, List.range_succ_eq_map, List.map_cons, List.map_map]
    simpa [Function.comp_def] using ih

theorem sizeTSub_of_le {a b : Nat} (hba : b ≤ a) (ha : a < 2 ^ 64) :
    sizeTSub a b = a - b := by
  unfold sizeTSub
  omega

theorem parse_improv_data_nocheck_isSome (data : Nat → Nat) (length : Nat) :
    (parse_improv_data data length false).isSome := by
  by_cases h : data 1 ≠ sizeTSub length 2 <;>
    simp [parse_improv_data, h]

theorem csumLoopRun_eq_sum_aux (data : Nat → Nat) (bound : Nat)
    (hb : bound ≤ 255) :
    ∀ k fuel i acc, i + k = bound → k < fuel → acc < 2 ^ 32 →
      csumLoopRun data bound fuel i acc
        = some ((acc + ((List.range' i k).map data).sum) % 2 ^ 32) := by
  intro k
  induction k with
  | zero =>
    intro fuel i acc hik hkf hacc
    match fuel, hkf with
    | fuel + 1, _ =>
      rw [csumLoopRun, if_neg (by omega)]
      simp only [List.range', List.map_nil, List.sum_nil, Nat.add_zero]
      rw [Nat.mod_eq_of_lt hacc]
  | succ k ih =>
    intro fuel i acc hik hkf hacc
    match fuel, hkf with
    | fuel + 1, hkf =>
      rw [csumLoopRun, if_pos (by omega)]
      rw [ih fuel ((i + 1) % 256) ((acc + data i) % 2 ^ 32)
        (by omega) (by omega) (Nat.mod_lt _ (by norm_num))]
      have h1 : (i + 1) % 256 = i + 1 := Nat.mod_eq_of_lt (by omega)
      rw [h1, List.range'_succ, List.map_cons, List.sum_cons]
      rw [Nat.mod_add_mod]
      ring_nf

theorem csumLoopRun_run (data : Nat → Nat) (bound : Nat) (hb : bound ≤ 255) :
    csumLoopRun data bound 256 0 0 = some (sumRange data bound % 2 ^ 32) := by
  have h := csumLoopRun_eq_sum_aux data bound hb bound 256 0 0
    (by omega) (by omega) (by norm_num)
  rw [h, sumRange, List.range_eq_range']
  simp

theorem csumLoopRun_none_of_ge (data : Nat → Nat) (bound : Nat)
    (hb : 256 ≤ bound) :
    ∀ fuel i acc, i < 256 → csumLoopRun data bound fuel i acc = none := by
  intro fuel
  induction fuel with
  | zero => intro i acc _; rfl
  | succ f ih =>
    intro i acc hi
    rw [csumLoopRun, if_pos (by omega)]
    exact ih _ _ (Nat.mod_lt _ (by norm_num))

theorem flatSegs_length (datum : List (List Nat)) :
    (flatSegs datum).length = datum.length + (datum.map List.length).sum := by
  induction datum with
  | nil => rfl
  | cons s t ih =>
    simp only [flatSegs, List.flatMap_cons, List.length_append,
      List.length_cons, List.map_cons, List.sum_cons] at *
    omega

theorem segment_eq_of_agree (data : Nat → Nat) (start : Nat) (s : List Nat)
    (hag : ∀ j, j < s.length → data (start + j) = s.getD j 0) :
    segment data start s.length = s := by
  unfold segment
  rw [List.map_congr_left fun j hj => hag j (List.mem_range.mp hj)]
  exact range_map_getD s

/-- Running the segment loop over memory that contains the wire image

of the segments `pre` consumes exactly those bytes and pushes exactly
the segments `pre`, in order. -/
theorem segLoop_consume (data : Nat → Nat) (limit cmd : Nat) :
    ∀ (pre : List (List Nat)) (pos : Nat) (acc : List (List Nat)),
      (∀ s ∈ pre, s.length ≤ 255) →
      (∀ j, j < (flatSegs pre).length →
        data (pos + j) = (flatSegs pre).getD j 0) →
      pos + (flatSegs pre).length ≤ limit →
      segLoop data limit cmd pos acc
        = segLoop data limit cmd (pos + (flatSegs pre).length) (acc ++ pre) := by
  intro pre
  induction pre with
  | nil => intro pos acc _ _ _; simp [flatSegs]
  | cons s t ih =>
    intro pos acc hb hag hle
    have hsl : s.length ≤ 255 := hb s (by simp)
    have hflat : flatSegs (s :: t) = s.length % 256 :: (s ++ flatSegs t) := by
      simp [flatSegs]
    have hm : s.length % 256 = s.length := Nat.mod_eq_of_lt (by omega)
    have hlen : (flatSegs (s :: t)).length
        = 1 + s.length + (flatSegs t).length := by
      rw [hflat]; simp; omega
    have hd0 : data pos = s.length := by
      have := hag 0 (by omega)
      simpa [hflat, hm] using this
    have hds : ∀ j, j < s.length → data (pos + 1 + j) = s.getD j 0 := by
      intro j hj
      have := hag (j + 1) (by omega)
      rw [hflat] at this
      rw [show pos + (j + 1) = pos + 1 + j from by omega] at this
      rw [this, List.getD_cons_succ]
      exact List.getD_append _ _ _ _ hj
    have hdt : ∀ j, j < (flatSegs t).length →
        data (pos + 1 + s.length + j) = (flatSegs t).getD j 0 := by
      intro j hj
      have := hag ((s.length + j) + 1) (by omega)
      rw [hflat] at this
      rw [show pos + ((s.length + j) + 1) = pos + 1 + s.length + j from
        by omega] at this
      rw [this, List.getD_cons_succ]
      rw [List.getD_append_right _ _ _ _ (by omega)]
      congr 1
      omega
    have hseg : segment data (pos + 1) s.length = s :=
      segment_eq_of_agree data (pos + 1) s hds
    calc segLoop data limit cmd pos acc
        = segLoop data limit cmd (pos + 1 + s.length) (acc ++ [s]) := by
          rw [segLoop, dif_pos (by omega), if_neg (by omega)]
          simp only [hd0]
          rw [if_neg (by omega), if_neg (by omega), hseg]
      _ = segLoop data limit cmd (pos + 1 + s.length + (flatSegs t).length)
            ((acc ++ [s]) ++ t) := by
          exact ih (pos + 1 + s.length) (acc ++ [s])
            (fun x hx => hb x (by simp [hx]))
            (fun j hj => hdt j hj)
            (by omega)
      _ = segLoop data limit cmd (pos + (flatSegs (s :: t)).length)
            (acc ++ s :: t) := by
          rw [show pos + 1 + s.length + (flatSegs t).length
            = pos + (flatSegs (s :: t)).length from by omega]
          rw [show (acc ++ [s]) ++ t = acc ++ s :: t from by simp]

theorem build_length (command : Nat) (datum : List (List Nat))
    (add_checksum : Bool) :
    (build_rpc_response command datum add_checksum).length
      = 3 + datum.length + (datum.map List.length).sum := by
  simp [build_rpc_response, flatSegs_length]
  omega

theorem build_getD_zero (command : Nat) (datum : List (List Nat))
    (add_checksum : Bool) :
    (build_rpc_response command datum add_checksum).getD 0 0
      = command % 256 := by
  simp [build_rpc_response]

theorem build_getD_one (command : Nat) (datum : List (List Nat))
    (add_checksum : Bool) :
    (build_rpc_response command datum add_checksum).getD 1 0
      = (datum.length + (datum.map List.length).sum) % 256 := by
  simp [build_rpc_response]

theorem build_getD_payload (command : Nat) (datum : List (List Nat))
    (add_checksum : Bool) (j : Nat) (hj : j < (flatSegs datum).length) :
    (build_rpc_response command datum add_checksum).getD (2 + j) 0
      = (flatSegs datum).getD j 0 := by
  simp only [build_rpc_response, List.cons_append]
  rw [show 2 + j = (j + 1) + 1 from by omega]
  rw [List.getD_cons_succ, List.getD_cons_succ]
  exact List.getD_append _ _ _ _ hj

theorem sumRange_append_getD (body tail : List Nat) :
    sumRange (fun i => (body ++ tail).getD i 0) body.length = body.sum := by
  unfold sumRange
  rw [List.map_congr_left fun i hi =>
    List.getD_append body tail 0 i (List.mem_range.mp hi)]
  exact congrArg List.sum (range_map_getD body)

/-- Decoding an encoder output that carries a checksum passes the
length check and the checksum check, and hands the frame to the
command dispatch (`parseSegmentsOrSingle`), provided the payload fits
the frame: `datum.size() + Σ lengths ≤ 253` keeps the total frame
length at most 256, which both avoids truncation of the length byte
and keeps the `uint8_t` checksum loop counter in range. -/
theorem parse_build_checksum_ok (command : Nat) (datum : List (List Nat))
    (htot : datum.length + (datum.map List.length).sum ≤ 253) :
    parse_improv_data_vec (build_rpc_response command datum true) true
      = some (parseSegmentsOrSingle
          (fun i => (build_rpc_response command datum true).getD i 0)
          (build_rpc_response command datum true).length 1) := by
  have hL : (build_rpc_response command datum true).length
      = 3 + datum.length + (datum.map List.length).sum :=
    build_length command datum true
  have h1 : (build_rpc_response command datum true).getD 1 0
      = (datum.length + (datum.map List.length).sum) % 256 :=
    build_getD_one command datum true
  have hmod : (datum.length + (datum.map List.length).sum) % 256
      = datum.length + (datum.map List.length).sum :=
    Nat.mod_eq_of_lt (by omega)
  have hsub : sizeTSub (build_rpc_response command datum true).length 3
      = datum.length + (datum.map List.length).sum := by
    rw [sizeTSub_of_le (by omega) (by omega), hL]
    omega
  unfold parse_improv_data_vec parse_improv_data
  rw [if_neg (by
    simp only [if_true]
    intro h
    exact h (by rw [h1, hmod, hsub]))]
  simp only [if_true]
  rw [csumLoopRun_run _ _ (by omega)]
  set out := build_rpc_response command datum true with hout
  have hbody : out = ((command % 256)
      :: ((datum.length + (datum.map List.length).sum) % 256)
      :: flatSegs datum)
      ++ [((command % 256)
      :: ((datum.length + (datum.map List.length).sum) % 256)
      :: flatSegs datum).sum % 2 ^ 32 % 256] := by
    rw [hout]; rfl
  set B := (command % 256)
      :: ((datum.length + (datum.map List.length).sum) % 256)
      :: flatSegs datum with hB
  have hblen : out.length - 1 = B.length := by
    rw [hB]
    simp only [List.length_cons, flatSegs_length]
    omega
  have hsum : sumRange (fun i => out.getD i 0) (out.length - 1)
      = B.sum := by
    rw [hblen, hbody]
    exact sumRange_append_getD _ _
  have hlast : out.getD (out.length - 1) 0 = B.sum % 2 ^ 32 % 256 := by
    rw [hblen, hbody]
    rw [List.getD_append_right _ _ _ _ (le_refl _)]
    simp
  rw [hsum, hlast]
  dsimp only []
  rw [if_neg (by
    rw [Nat.mod_mod_of_dvd _ (by norm_num : (256 : Nat) ∣ 2 ^ 32)]
    exact fun h => h rfl)]


theorem foldl_mod_add (l : List Nat) :
    ∀ a : Nat, l.foldl (fun acc b => (acc + b) % 256) (a % 256)
      = (a + l.sum) % 256 := by
  induction l with
  | nil => intro a; simp
  | cons x t ih =>
    intro a
    rw [List.foldl_cons, Nat.mod_add_mod, ih (a + x), List.sum_cons]
    ring_nf

theorem serialChecksum_eq_sumRange (buffer : Nat → Nat) (position : Nat) :
    serialChecksum buffer position = sumRange buffer position % 256 := by
  unfold serialChecksum sumRange
  have h := foldl_mod_add ((List.range position).map buffer) 0
  simpa using h

theorem xor_two_pow_ne (x b : Nat) : x ^^^ 2 ^ b ≠ x := by
  intro h
  have h2 : x ^^^ (x ^^^ 2 ^ b) = x ^^^ x := by rw [h]
  rw [← Nat.xor_assoc, Nat.xor_self, Nat.zero_xor] at h2
  exact pow_ne_zero b (by norm_num) h2

theorem sumRange_eq_sum_finset (f : Nat → Nat) (n : Nat) :
    sumRange f n = ∑ i ∈ Finset.range n, f i := by
  induction n with
  | zero => rfl
  | succ m ih =>
    rw [Finset.sum_range_succ, ← ih]
    unfold sumRange
    rw [List.range_succ]
    simp

/-- When a checksum is requested, the final byte of the built frame is

the 8-bit truncated sum of all preceding bytes. -/
theorem build_checksum_validates (command : Nat) (datum : List (List Nat)) :
    (build_rpc_response command datum true).getD
        ((build_rpc_response command datum true).length - 1) 0
      = sumRange (fun i => (build_rpc_response command datum true).getD i 0)
          ((build_rpc_response command datum true).length - 1) % 256 := by
  set out := build_rpc_response command datum true with hout
  set B := (command % 256)
      :: ((datum.length + (datum.map List.length).sum) % 256)
      :: flatSegs datum with hB
  have hbody : out = B ++ [B.sum % 2 ^ 32 % 256] := by rw [hout, hB]; rfl
  have hblen : out.length - 1 = B.length := by
    rw [hbody]; simp
  rw [hblen, hbody]
  rw [List.getD_append_right _ _ _ _ (le_refl _)]
  rw [sumRange_append_getD]
  simp only [Nat.sub_self, List.getD_cons_zero]
  omega

theorem parse_unknown_of_mismatch (data : Nat → Nat) (length : Nat)
    (check_checksum : Bool)
    (hne : data 1 ≠ sizeTSub length (2 + if check_checksum then 1 else 0)) :
    parse_improv_data data length check_checksum = some ⟨UNKNOWN, []⟩ := by
  simp only [parse_improv_data]
  rw [if_pos hne]

/-! ### Claim C7 -/

/-- C7: for every input buffer of size at least 2 and either value of

the checksum flag, if the declared length byte `data[1]` does not equal
`total_bytes - 2 - checksum_offset` (as integers), `parse_improv_data`
returns command `UNKNOWN` with empty data, whatever the rest of the
buffer holds.  (The call returns immediately, so nothing further is
processed.) -/
theorem C7_length_mismatch_rejection (data : Nat → Nat) (length : Nat)
    (check_checksum : Bool)
    (hlen : 2 ≤ length) (hsz : length < 2 ^ 64) (hbyte : data 1 < 256)
    (hne : (data 1 : Int)
      ≠ (length : Int) - 2 - (if check_checksum then 1 else 0)) :
    parse_improv_data data length check_checksum = some ⟨UNKNOWN, []⟩ := by
  apply parse_unknown_of_mismatch
  unfold sizeTSub
  cases check_checksum <;> simp at hne ⊢ <;> omega

/-- Witness for C7 at a concrete input: buffer `[2, 9, 2]` with

checksum verification on (declared length 9, actual `3 - 2 - 1 = 0`). -/
theorem C7_witness :
    parse_improv_data (fun i => [2, 9, 2].getD i 0) 3 true
      = some ⟨UNKNOWN, []⟩ :=
  C7_length_mismatch_rejection (fun i => [2, 9, 2].getD i 0) 3 true
    (by decide) (by decide) (by decide) (by decide)

/-! ### Claim C9 -/

/-- C9: for every position `p ≤ 6` and every byte, the synchronizer

returns `true` (keep buffering) exactly when the byte matches the
expected preamble character (positions 0–5, the ASCII bytes of
`IMPROV`) or the protocol version constant (position 6); and at these
positions it never invokes the success callback or the error
callback — returning `false` is the desynchronization signal. -/
theorem C9_preamble_version_sync (p b : Nat) (buffer : Nat → Nat)
    (callback : ImprovCommand → Bool) (hp : p ≤ 6) :
    ((parse_improv_serial_byte p b buffer callback).ret = true
      ↔ b = [73, 77, 80, 82, 79, 86, IMPROV_SERIAL_VERSION].getD p 0)
    ∧ (parse_improv_serial_byte p b buffer callback).cb = none
    ∧ (parse_improv_serial_byte p b buffer callback).err = none := by
  interval_cases p <;>
    simp [parse_improv_serial_byte, IMPROV_SERIAL_VERSION, beq_iff_eq]

/-- Witness for C9 at position 0 with the matching byte 73. -/
theorem C9_witness :
    ((parse_improv_serial_byte 0 73 (fun _ => 0) (fun _ => true)).ret = true
      ↔ 73 = [73, 77, 80, 82, 79, 86, IMPROV_SERIAL_VERSION].getD 0 0)
    ∧ (parse_improv_serial_byte 0 73 (fun _ => 0) (fun _ => true)).cb = none
    ∧ (parse_improv_serial_byte 0 73 (fun _ => 0) (fun _ => true)).err
        = none :=
  C9_preamble_version_sync 0 73 (fun _ => 0) (fun _ => true) (by decide)

/-! ### Claim C2 -/

/-- Failing input for C2: a 257-byte buffer whose declared length byte

is 254, so the length check passes and the checksum loop is entered. -/
def c2data : Nat → Nat := fun i => if i = 1 then 254 else 0

/-- C2 is refuted (code_bug): on a 257-byte input whose length byte

passes the check, the checksum loop never exits — its `uint8_t`
counter wraps below the bound `length - 1 = 256` for every fuel — so
`parse_improv_data` never returns (modelled as `none`), contradicting
the claim that every call completes. -/
theorem C2_checksum_loop_divergence :
    (∀ fuel i acc, i < 256 → csumLoopRun c2data 256 fuel i acc = none)
    ∧ parse_improv_data c2data 257 true = none := by
  refine ⟨fun fuel i acc hi =>
    csumLoopRun_none_of_ge c2data 256 (le_refl 256) fuel i acc hi, ?_⟩
  simp only [parse_improv_data]
  rw [if_neg (by intro h; exact h (by decide))]
  rw [if_pos trivial]
  rw [show (257 : Nat) - 1 = 256 from rfl]
  rw [csumLoopRun_none_of_ge c2data 256 (le_refl 256) 256 0 0 (by norm_num)]

/-- Witness for C2: the loop is still running after 7 iterations from

counter value 5, and the full call diverges. -/
theorem C2_witness :
    csumLoopRun c2data 256 7 5 0 = none
    ∧ parse_improv_data c2data 257 true = none :=
  ⟨C2_checksum_loop_divergence.1 7 5 0 (by decide),
    C2_checksum_loop_divergence.2⟩

/-! ### Claim C3 -/

/-- History buffer for the C3 failing input: a stream frame with

`data_len = 0` (positions 0–8: magic, version, `TYPE_RPC`, length 0);
the current byte is the checksum at position 9. -/
def c3buffer : Nat → Nat := fun i => [73, 77, 80, 82, 79, 86, 1, 3, 0].getD i 0

/-- C3 is refuted (code_bug): at the checksum position 9 of a frame

with `data_len = 0` and matching checksum and type `TYPE_RPC`, the
nested `parse_improv_data(&buffer[9], 0, false)` call dereferences
payload indices 0 and 1 unconditionally, i.e. history positions 9 and
10 — not strictly below the current position 9.  (225 is the matching
stream checksum: the truncated sum of bytes 0–8.) -/
theorem C3_out_of_bounds_reads :
    parseReadsNoCheck (fun i => c3buffer (9 + i)) 0 = [0, 1]
    ∧ (parseReadsNoCheck (fun i => c3buffer (9 + i)) 0).map (9 + ·) = [9, 10]
    ∧ ¬ (∀ r ∈ (parseReadsNoCheck (fun i => c3buffer (9 + i)) 0).map (9 + ·),
          r < 9)
    ∧ serialChecksum c3buffer 9 = 225
    ∧ (parse_improv_serial_byte 9 225 c3buffer (fun _ => true)).cb
        = some ⟨UNKNOWN, []⟩ := by
  refine ⟨by decide, by decide, by decide, by decide, ?_⟩
  decide

/-! ### Claim C4 -/

/-- General form of a segment-framing violation: the payload carries

the wire image of the segments `pre` followed by a length byte
`badLen` that exceeds the `rest.length` remaining bytes.  The decode
returns command `UNKNOWN` with the segments parsed before the
violation still present in `data`. -/
theorem parse_seg_violation (cmd lenB badLen : Nat)
    (pre : List (List Nat)) (rest : List Nat)
    (hcmd : cmd = WIFI_SETTINGS ∨ cmd = CUSTOM)
    (hpre : ∀ s ∈ pre, s.length ≤ 255)
    (hlenB : lenB = (flatSegs pre).length + 1 + rest.length)
    (hpay : (flatSegs pre).length + 1 + rest.length ≤ 255)
    (hbad : badLen > rest.length) :
    parse_improv_data_vec (cmd :: lenB :: (flatSegs pre ++ badLen :: rest))
      false = some ⟨UNKNOWN, pre⟩ := by
  set v := cmd :: lenB :: (flatSegs pre ++ badLen :: rest) with hv
  have hL : v.length = 2 + (flatSegs pre).length + 1 + rest.length := by
    rw [hv]; simp; omega
  unfold parse_improv_data_vec parse_improv_data
  rw [if_neg (by
    simp only [Bool.false_eq_true, if_false]
    intro h
    apply h
    have h1 : v.getD 1 0 = lenB := by rw [hv]; rfl
    rw [h1, sizeTSub_of_le (by omega) (by omega), hL, hlenB]
    omega)]
  simp only [Bool.false_eq_true, if_false]
  unfold parseSegmentsOrSingle
  have h0 : v.getD 0 0 = cmd := by rw [hv]; rfl
  simp only [h0]
  rw [if_pos hcmd]
  have hag : ∀ j, j < (flatSegs pre).length →
      (fun i => v.getD i 0) (2 + j) = (flatSegs pre).getD j 0 := by
    intro j hj
    show v.getD (2 + j) 0 = (flatSegs pre).getD j 0
    rw [hv]
    rw [show 2 + j = (j + 1) + 1 from by omega]
    rw [List.getD_cons_succ, List.getD_cons_succ]
    exact List.getD_append _ _ _ _ hj
  rw [show v.length - (0 : Nat) = v.length from by omega]
  rw [segLoop_consume (fun i => v.getD i 0) v.length cmd pre 2 [] hpre hag
    (by omega)]
  rw [segLoop]
  rw [dif_pos (by omega)]
  rw [if_neg (by omega)]
  have hbadv : (fun i => v.getD i 0) (2 + (flatSegs pre).length) = badLen := by
    show v.getD (2 + (flatSegs pre).length) 0 = badLen
    rw [hv]
    rw [show 2 + (flatSegs pre).length = ((flatSegs pre).length + 1) + 1 from
      by omega]
    rw [List.getD_cons_succ, List.getD_cons_succ]
    rw [List.getD_append_right _ _ _ _ (by omega)]
    simp
  simp only [hbadv]
  rw [if_pos (by omega)]
  simp

/-- C4 is refuted: on a segment-framing violation the code returns

command `UNKNOWN`, but the `data` field keeps the segments parsed
before the violation; here `[1, 3, 1, 65, 2]` (Wi-Fi settings, payload
length 3, one complete segment `[65]`, then a dangling length byte 2)
decodes to `{UNKNOWN, [[65]]}`, not `{UNKNOWN, []}`. -/
theorem C4_counterexample :
    parse_improv_data_vec [1, 3, 1, 65, 2] false = some ⟨UNKNOWN, [[65]]⟩
    ∧ some (⟨UNKNOWN, [[65]]⟩ : ImprovCommand) ≠ some ⟨UNKNOWN, []⟩ := by
  constructor
  · exact parse_seg_violation 1 3 2 [[65]] [] (Or.inl rfl) (by decide)
      (by decide) (by decide) (by decide)
  · decide

/-- The segment loop on a violating payload: memory holds the wire

image of the segments `pre` starting at offset 2, then a length byte
`badLen` exceeding the `r` remaining payload bytes before `limit`; the
loop stops with `UNKNOWN`, keeping the segments parsed so far. -/
theorem segLoop_violation (data : Nat → Nat) (limit cmd r : Nat)
    (pre : List (List Nat)) (badLen : Nat)
    (hpre : ∀ s ∈ pre, s.length ≤ 255)
    (hag : ∀ j, j < (flatSegs pre).length →
      data (2 + j) = (flatSegs pre).getD j 0)
    (hbadv : data (2 + (flatSegs pre).length) = badLen)
    (hlim : limit = 2 + (flatSegs pre).length + 1 + r)
    (hbad : badLen > r) :
    segLoop data limit cmd 2 [] = ⟨UNKNOWN, pre⟩ := by
  rw [segLoop_consume data limit cmd pre 2 [] hpre hag (by omega)]
  rw [segLoop]
  rw [dif_pos (by omega)]
  rw [if_neg (by omega)]
  simp only [hbadv]
  rw [if_pos (by omega)]
  simp

/-- The checksum-verified counterpart of `parse_seg_violation`: the

same violating frame, now carrying its (matching) trailing checksum
byte and decoded with `check_checksum = true`, also returns `UNKNOWN`
with the segments parsed before the violation.  The cumulative payload
bound 253 keeps the frame at most 256 bytes, so the checksum loop
terminates and the segment decoder is actually reached. -/
theorem parse_seg_violation_checked (cmd badLen : Nat)
    (pre : List (List Nat)) (rest : List Nat)
    (hcmd : cmd = WIFI_SETTINGS ∨ cmd = CUSTOM)
    (hpre : ∀ s ∈ pre, s.length ≤ 255)
    (hpay : (flatSegs pre).length + 1 + rest.length ≤ 253)
    (hbad : badLen > rest.length) :
    parse_improv_data_vec
      (cmd :: ((flatSegs pre).length + 1 + rest.length)
        :: ((flatSegs pre ++ badLen :: rest)
          ++ [(cmd + ((flatSegs pre).length + 1 + rest.length)
                + (flatSegs pre ++ badLen :: rest).sum) % 256]))
      true = some ⟨UNKNOWN, pre⟩ := by
  set P := flatSegs pre ++ badLen :: rest with hP
  set n := (flatSegs pre).length + 1 + rest.length with hn
  set c := (cmd + n + P.sum) % 256 with hc
  set v := cmd :: n :: (P ++ [c]) with hv
  have hPlen : P.length = n := by
    rw [hP, hn]
    simp only [List.length_append, List.length_cons]
    omega
  have hL : v.length = n + 3 := by
    rw [hv]; simp [hPlen]
  have h1v : v.getD 1 0 = n := by rw [hv]; rfl
  have hsub : sizeTSub v.length 3 = n := by
    rw [sizeTSub_of_le (by omega) (by omega)]
    omega
  unfold parse_improv_data_vec parse_improv_data
  rw [if_neg (by
    simp only [if_true]
    intro h
    exact h (by rw [h1v, hsub]))]
  simp only [if_true]
  rw [csumLoopRun_run _ _ (by omega)]
  have hbody : v = (cmd :: n :: P) ++ [c] := by rw [hv]; rfl
  have hblen : v.length - 1 = (cmd :: n :: P).length := by
    rw [hbody]; simp
  have hsum : sumRange (fun i => v.getD i 0) (v.length - 1)
      = (cmd :: n :: P).sum := by
    rw [hblen, hbody]
    exact sumRange_append_getD _ _
  have hlast : v.getD (v.length - 1) 0 = c := by
    rw [hblen, hbody]
    rw [List.getD_append_right _ _ _ _ (le_refl _)]
    simp
  rw [hsum, hlast]
  dsimp only []
  rw [if_neg (by
    rw [Nat.mod_mod_of_dvd _ (by norm_num : (256 : Nat) ∣ 2 ^ 32)]
    intro h
    apply h
    simp only [List.sum_cons]
    omega)]
  unfold parseSegmentsOrSingle
  have h0 : (fun i => v.getD i 0) 0 = cmd := by
    show v.getD 0 0 = cmd
    rw [hv]
    rfl
  simp only [h0]
  rw [if_pos hcmd]
  have hseg : segLoop (fun i => v.getD i 0) (v.length - 1) cmd 2 []
      = ⟨UNKNOWN, pre⟩ := by
    apply segLoop_violation _ _ _ rest.length pre badLen hpre ?_ ?_
      (by omega) hbad
    · intro j hj
      show v.getD (2 + j) 0 = (flatSegs pre).getD j 0
      rw [hv]
      rw [show 2 + j = (j + 1) + 1 from by omega]
      rw [List.getD_cons_succ, List.getD_cons_succ]
      rw [List.getD_append _ _ _ _ (by omega)]
      rw [hP]
      exact List.getD_append _ _ _ _ hj
    · show v.getD (2 + (flatSegs pre).length) 0 = badLen
      rw [hv]
      rw [show 2 + (flatSegs pre).length = (((flatSegs pre).length + 1) + 1)
        from by omega]
      rw [List.getD_cons_succ, List.getD_cons_succ]
      rw [List.getD_append _ _ _ _ (by omega)]
      rw [hP]
      rw [List.getD_append_right _ _ _ _ (le_refl _)]
      simp
  rw [hseg]

/-- C4 amended: for every input on which the segment decoder hits a

segment-framing violation (a declared segment length exceeding the
remaining payload bytes) — for either value of the checksum flag —
`parse_improv_data` returns command `UNKNOWN`, and the `data` field
holds exactly the segments parsed before the violation (so it is *not*
in general empty; per the spec data is undefined when the command is a
sentinel and callers must check `command` first).  An input that
reaches the segment decoder necessarily has a length byte equal to its
payload length (at most 255 without a checksum); when verification is
on it also carries a matching trailing checksum byte (else the decode
stops earlier with `BAD_CHECKSUM`) and a payload of at most 253 bytes
(254–255 make a 257–258 byte frame on which the checksum loop never
exits, see C2/C8) — so the frames below are exactly those on which the
decoder hits the violation. -/
theorem C4_amended_partial_segments_kept (check_checksum : Bool)
    (cmd badLen : Nat) (pre : List (List Nat)) (rest : List Nat)
    (hcmd : cmd = WIFI_SETTINGS ∨ cmd = CUSTOM)
    (hpre : ∀ s ∈ pre, s.length ≤ 255)
    (hpay : (flatSegs pre).length + 1 + rest.length
      ≤ if check_checksum then 253 else 255)
    (hbad : badLen > rest.length) :
    parse_improv_data_vec
      (cmd :: ((flatSegs pre).length + 1 + rest.length)
        :: ((flatSegs pre ++ badLen :: rest)
          ++ (if check_checksum then
                [(cmd + ((flatSegs pre).length + 1 + rest.length)
                  + (flatSegs pre ++ badLen :: rest).sum) % 256]
              else [])))
      check_checksum = some ⟨UNKNOWN, pre⟩ := by
  cases check_checksum with
  | false =>
    have hpay255 : (flatSegs pre).length + 1 + rest.length ≤ 255 := by
      simpa using hpay
    have h := parse_seg_violation cmd
      ((flatSegs pre).length + 1 + rest.length) badLen pre rest
      hcmd hpre rfl hpay255 hbad
    simpa using h
  | true =>
    have hpay253 : (flatSegs pre).length + 1 + rest.length ≤ 253 := by
      simpa using hpay
    have h := parse_seg_violation_checked cmd badLen pre rest
      hcmd hpre hpay253 hbad
    simpa using h

/-- Witness for the amended C4: checksum-verified Wi-Fi settings frame

`[1, 4, 2, 66, 67, 9, 149]` with one complete segment `[66, 67]`
followed by a dangling length byte 9 (149 is the matching checksum). -/
theorem C4_witness :
    parse_improv_data_vec [1, 4, 2, 66, 67, 9, 149] true
      = some ⟨UNKNOWN, [[66, 67]]⟩ :=
  C4_amended_partial_segments_kept true 1 9 [[66, 67]] [] (Or.inl rfl)
    (by decide) (by decide) (by decide)


/-! ### Claim C10 -/

/-- C10: for every command tag and every list of fields,

`build_rpc_response` returns a buffer of exactly
`3 + (number of fields) + (total field bytes)` bytes, for either value
of `add_checksum`; when `add_checksum` is false the final byte is 0,
the payload-length byte counts only `fields + bytes` (not the slot),
and decoding that frame with checksum verification off yields command
`UNKNOWN` (the declared length can never equal the actual
`total - 2`, which also counts the unused slot). -/
theorem C10_build_length_and_nochecksum (command : Nat)
    (datum : List (List Nat)) (add_checksum : Bool)
    (hsz : 3 + datum.length + (datum.map List.length).sum < 2 ^ 64) :
    (build_rpc_response command datum add_checksum).length
      = 3 + datum.length + (datum.map List.length).sum
    ∧ (build_rpc_response command datum false).getD
        ((build_rpc_response command datum false).length - 1) 0 = 0
    ∧ (build_rpc_response command datum false).getD 1 0
        = (datum.length + (datum.map List.length).sum) % 256
    ∧ parse_improv_data_vec (build_rpc_response command datum false) false
        = some ⟨UNKNOWN, []⟩ := by
  refine ⟨build_length command datum add_checksum, ?_, build_getD_one command datum false, ?_⟩
  · have hbody : build_rpc_response command datum false
        = ((command % 256)
          :: ((datum.length + (datum.map List.length).sum) % 256)
          :: flatSegs datum) ++ [0] := rfl
    have hblen : (build_rpc_response command datum false).length - 1
        = ((command % 256)
          :: ((datum.length + (datum.map List.length).sum) % 256)
          :: flatSegs datum).length := by
      rw [hbody]; simp
    rw [hblen, hbody]
    rw [List.getD_append_right _ _ _ _ (le_refl _)]
    simp
  · apply parse_unknown_of_mismatch
    have hL := build_length command datum false
    rw [build_getD_one command datum false]
    simp only [Bool.false_eq_true, if_false, Nat.add_zero]
    rw [sizeTSub_of_le (by omega) (by omega), hL]
    have := Nat.mod_le (datum.length + (datum.map List.length).sum) 256
    have := Nat.mod_lt (datum.length + (datum.map List.length).sum)
      (show 0 < 256 by norm_num)
    omega

/-- Witness for C10 with one field of one byte. -/
theorem C10_witness :
    (build_rpc_response 2 [[7]] true).length = 3 + 1 + 1
    ∧ (build_rpc_response 2 [[7]] false).getD
        ((build_rpc_response 2 [[7]] false).length - 1) 0 = 0
    ∧ (build_rpc_response 2 [[7]] false).getD 1 0 = (1 + 1) % 256
    ∧ parse_improv_data_vec (build_rpc_response 2 [[7]] false) false
        = some ⟨UNKNOWN, []⟩ := by
  have h := C10_build_length_and_nochecksum 2 [[7]] true (by decide)
  simpa using h

/-! ### Claim C1 -/

/-- C1 is refuted: on the 11-byte stream

`I M P R O V <version> <TYPE_RPC> 0x01 <cmd_byte> <checksum>` with
`cmd_byte = 4` and the correct checksum
`(73+77+80+82+79+86+1+3+1+4) % 256 = 230`, the call at the checksum
position invokes the success callback with `{UNKNOWN, []}` — not with
`{command: 4, data: []}` — because the 1-byte inner payload fails the
inner frame length check of `parse_improv_data`. -/
theorem C1_counterexample :
    sumRange (fun i => [73, 77, 80, 82, 79, 86, 1, 3, 1, 4, 230].getD i 0)
        10 % 256 = 230
    ∧ (parse_improv_serial_byte 10 230
        (fun i => [73, 77, 80, 82, 79, 86, 1, 3, 1, 4, 230].getD i 0)
        (fun _ => true)).cb = some ⟨UNKNOWN, []⟩
    ∧ some (⟨UNKNOWN, []⟩ : ImprovCommand) ≠ some ⟨4, []⟩ := by
  refine ⟨by decide, ?_, by decide⟩
  decide

/-- C1 amended: feeding the synchronizer the 11-byte stream

`I M P R O V <version> <TYPE_RPC> 0x01 <cmd_byte> <checksum>`, where
the checksum is the truncated sum of the 10 preceding bytes, makes the
call at the checksum position invoke the success callback — but with
`ParsedCommand{command: UNKNOWN, data: []}` for every value of
`cmd_byte`, because the nested `parse_improv_data` call sees a 1-byte
buffer whose length check can never pass (it also reads the byte one
past the payload, `buffer[10]`, modelled here as the arbitrary byte
`v`). -/
theorem C1_amended_stream_example (buffer : Nat → Nat) (cmd v : Nat)
    (callback : ImprovCommand → Bool)
    (h0 : buffer 0 = 73) (h1 : buffer 1 = 77) (h2 : buffer 2 = 80)
    (h3 : buffer 3 = 82) (h4 : buffer 4 = 79) (h5 : buffer 5 = 86)
    (h6 : buffer 6 = IMPROV_SERIAL_VERSION) (h7 : buffer 7 = TYPE_RPC)
    (h8 : buffer 8 = 1) (h9 : buffer 9 = cmd) (h10 : buffer 10 = v)
    (hv : v < 256) :
    parse_improv_serial_byte 10 (sumRange buffer 10 % 256) buffer callback
      = ⟨callback ⟨UNKNOWN, []⟩, some ⟨UNKNOWN, []⟩, none⟩ := by
  unfold parse_improv_serial_byte
  rw [if_neg (by norm_num), if_neg (by norm_num), if_neg (by norm_num),
    if_neg (by norm_num), if_neg (by norm_num), if_neg (by norm_num),
    if_neg (by norm_num), if_neg (by norm_num)]
  simp only [h8]
  rw [if_neg (by norm_num), if_pos (by norm_num)]
  rw [if_neg (by rw [serialChecksum_eq_sumRange]; exact fun h => h rfl)]
  rw [h7, if_pos rfl]
  have hparse : parse_improv_data (fun i => buffer (9 + i)) 1 false
      = some ⟨UNKNOWN, []⟩ := by
    apply parse_unknown_of_mismatch
    simp only [Bool.false_eq_true, if_false, Nat.add_zero]
    show buffer 10 ≠ sizeTSub 1 2
    rw [h10]
    unfold sizeTSub
    omega
  rw [hparse]

/-- Witness for the amended C1: `cmd_byte = 4`, the byte beyond the

history set to 0, and a callback that returns `true`. -/
theorem C1_witness :
    parse_improv_serial_byte 10
        (sumRange (fun i => [73, 77, 80, 82, 79, 86, 1, 3, 1, 4, 0].getD i 0)
          10 % 256)
        (fun i => [73, 77, 80, 82, 79, 86, 1, 3, 1, 4, 0].getD i 0)
        (fun _ => true)
      = ⟨true, some ⟨UNKNOWN, []⟩, none⟩ :=
  C1_amended_stream_example
    (fun i => [73, 77, 80, 82, 79, 86, 1, 3, 1, 4, 0].getD i 0) 4 0
    (fun _ => true) rfl rfl rfl rfl rfl rfl rfl rfl rfl rfl rfl (by decide)

/-! ### Claim C5 -/

/-- Frame for the C5 counterexample: `[2, 0, 2]` — command 2, declared

length 0, checksum 2 — accepted by `parse_improv_data(..., true)`. -/
def c5data : Nat → Nat := fun i => [2, 0, 2].getD i 0

/-- C5 is refuted: flipping bit 0 of the declared-length byte (index 1)

of the accepted frame `[2, 0, 2]` yields `[2, 1, 2]`, which decodes to
`UNKNOWN` — not `BAD_CHECKSUM` — because the length check runs before
the checksum check; the flip is not in the claim's excluded class,
since the stored checksum byte (2) differs from the recomputed
truncated sum of the flipped frame (3). -/
theorem C5_counterexample :
    parse_improv_data c5data 3 true = some ⟨2, []⟩
    ∧ parse_improv_data (flipBit c5data 1 0) 3 true = some ⟨UNKNOWN, []⟩
    ∧ some (⟨UNKNOWN, []⟩ : ImprovCommand) ≠ some ⟨BAD_CHECKSUM, []⟩
    ∧ sumRange (flipBit c5data 1 0) 2 % 256 ≠ flipBit c5data 1 0 2 := by
  refine ⟨?_, ?_, by decide, by decide⟩ <;> decide

/-- C5 amended: for every checksummed frame that

`parse_improv_data(..., true)` accepts (the declared length byte
matches and the stored checksum equals the truncated sum of the
preceding bytes; such a frame has `length ≤ 256`, larger frames never
return), flipping any single bit of any byte *other than the
declared-length byte at index 1* makes the decode of the flipped frame
return `BAD_CHECKSUM`.  (No exclusion is needed: such a flip always
breaks the stored-versus-recomputed checksum match; a flip of the
length byte instead fails the length check and returns `UNKNOWN`.) -/
theorem C5_amended_checksum_sensitivity (data : Nat → Nat) (L k b : Nat)
    (hL3 : 3 ≤ L) (hL : L ≤ 256)
    (hbytes : ∀ i, i < L → data i < 256)
    (hlen : data 1 = L - 3)
    (hcs : sumRange data (L - 1) % 256 = data (L - 1))
    (hk : k < L) (hk1 : k ≠ 1) (hb : b < 8) :
    parse_improv_data (flipBit data k b) L true
      = some ⟨BAD_CHECKSUM, []⟩ := by
  have hflip1 : flipBit data k b 1 = data 1 := by
    simp only [flipBit]
    rw [if_neg (fun h => hk1 h.symm)]
  simp only [parse_improv_data]
  rw [if_neg (by
    simp only [if_true]
    intro h
    apply h
    rw [hflip1, hlen, sizeTSub_of_le (by omega) (by omega)])]
  simp only [if_true]
  rw [csumLoopRun_run _ _ (by omega)]
  have hxlt : data k ^^^ 2 ^ b < 256 :=
    Nat.xor_lt_two_pow (n := 8) (hbytes k hk)
      (Nat.pow_lt_pow_right (by norm_num) hb)
  have hxne : data k ^^^ 2 ^ b ≠ data k := xor_two_pow_ne (data k) b
  have hkey : sumRange (flipBit data k b) (L - 1) % 2 ^ 32 % 256
      ≠ flipBit data k b (L - 1) := by
    rw [Nat.mod_mod_of_dvd _ (by norm_num : (256 : Nat) ∣ 2 ^ 32)]
    by_cases hkL : k = L - 1
    · have hsame : sumRange (flipBit data k b) (L - 1)
          = sumRange data (L - 1) := by
        unfold sumRange
        apply congrArg List.sum
        apply List.map_congr_left
        intro i hi
        have hi' := List.mem_range.mp hi
        simp only [flipBit]
        rw [if_neg (by omega)]
      have hlast : flipBit data k b (L - 1) = data (L - 1) ^^^ 2 ^ b := by
        simp only [flipBit]
        rw [if_pos hkL.symm]
      rw [hsame, hlast, hcs]
      rw [← hkL]
      exact fun h => hxne h.symm
    · have hupd : flipBit data k b
          = Function.update data k (data k ^^^ 2 ^ b) := by
        funext i
        simp only [flipBit, Function.update_apply]
        by_cases h : i = k <;> simp [h]
      have hmem : k ∈ Finset.range (L - 1) :=
        Finset.mem_range.mpr (by omega)
      have hS' : sumRange (flipBit data k b) (L - 1)
          = (data k ^^^ 2 ^ b)
            + ∑ x ∈ Finset.range (L - 1) \ {k}, data x := by
        rw [sumRange_eq_sum_finset, hupd]
        exact Finset.sum_update_of_mem hmem _ _
      have hS : sumRange data (L - 1)
          = data k + ∑ x ∈ Finset.range (L - 1) \ {k}, data x := by
        rw [sumRange_eq_sum_finset]
        rw [Finset.sum_eq_sum_diff_singleton_add hmem]
        omega
      have hlast : flipBit data k b (L - 1) = data (L - 1) := by
        simp only [flipBit]
        rw [if_neg (by omega)]
      rw [hlast, ← hcs, hS', hS]
      have hx := hbytes k hk
      omega
  dsimp only []
  rw [if_pos hkey]

/-- Witness for the amended C5: flipping bit 0 of the command byte of

the accepted frame `[2, 0, 2]` gives `BAD_CHECKSUM`. -/
theorem C5_witness :
    parse_improv_data (flipBit c5data 0 0) 3 true
      = some ⟨BAD_CHECKSUM, []⟩ :=
  C5_amended_checksum_sensitivity c5data 3 0 0 (by decide) (by decide)
    (by decide) (by decide) (by decide) (by decide) (by decide) (by decide)

/-! ### Claim C6 -/

set_option maxRecDepth 100000 in
/-- C6 is refuted: with two 127-byte fields (each well under 255

bytes), the built frame's payload-length byte truncates
(`2 + 254 = 256` is stored as 0), so decoding returns `UNKNOWN`
instead of `{command, []}` — the claim lacks a bound on the cumulative
payload. -/
theorem C6_counterexample :
    (∀ s ∈ [List.replicate 127 (0 : Nat), List.replicate 127 (0 : Nat)],
      s.length ≤ 255)
    ∧ parse_improv_data_vec
        (build_rpc_response 2
          [List.replicate 127 0, List.replicate 127 0] true) true
      = some ⟨UNKNOWN, []⟩
    ∧ some (⟨UNKNOWN, []⟩ : ImprovCommand) ≠ some ⟨2, []⟩ := by
  refine ⟨by decide, ?_, by decide⟩
  decide

/-- C6 amended: for every single-value command tag (a byte that is

neither `WIFI_SETTINGS` nor `CUSTOM`) and every list of fields, each
of byte length at most 255 *and with cumulative payload
(field count plus total field bytes) at most 253* (so the whole frame
fits in 256 bytes), decoding the encoder output with checksum
verification yields `{command, []}`, and the checksum byte embedded in
the encoded frame equals the truncated sum of the preceding bytes. -/
theorem C6_amended_roundtrip_single (command : Nat)
    (datum : List (List Nat))
    (hcmd : command < 256) (hw : command ≠ WIFI_SETTINGS)
    (hc : command ≠ CUSTOM)
    (hfields : ∀ s ∈ datum, s.length ≤ 255)
    (htot : datum.length + (datum.map List.length).sum ≤ 253) :
    parse_improv_data_vec (build_rpc_response command datum true) true
      = some ⟨command, []⟩
    ∧ (build_rpc_response command datum true).getD
        ((build_rpc_response command datum true).length - 1) 0
      = sumRange (fun i => (build_rpc_response command datum true).getD i 0)
          ((build_rpc_response command datum true).length - 1) % 256 := by
  refine ⟨?_, build_checksum_validates command datum⟩
  rw [parse_build_checksum_ok command datum htot]
  unfold parseSegmentsOrSingle
  have h0 : (fun i => (build_rpc_response command datum true).getD i 0) 0
      = command := by
    show (build_rpc_response command datum true).getD 0 0 = command
    rw [build_getD_zero, Nat.mod_eq_of_lt hcmd]
  simp only [h0]
  rw [if_neg (by
    intro h
    rcases h with h | h
    · exact hw h
    · exact hc h)]

/-- Witness for the amended C6: command 2 with fields

`[[104, 105], [33]]`. -/
theorem C6_witness :
    parse_improv_data_vec (build_rpc_response 2 [[104, 105], [33]] true) true
      = some ⟨2, []⟩
    ∧ (build_rpc_response 2 [[104, 105], [33]] true).getD
        ((build_rpc_response 2 [[104, 105], [33]] true).length - 1) 0
      = sumRange
          (fun i => (build_rpc_response 2 [[104, 105], [33]] true).getD i 0)
          ((build_rpc_response 2 [[104, 105], [33]] true).length - 1)
        % 256 :=
  C6_amended_roundtrip_single 2 [[104, 105], [33]] (by decide) (by decide)
    (by decide) (by decide) (by decide)

/-! ### Claim C8 -/

set_option maxRecDepth 100000 in
/-- C8 is refuted: a single 253-byte segment satisfies the claim's

cumulative bound (`1 + 253 = 254 ≤ 255`), but the resulting 257-byte
frame drives the `uint8_t` checksum loop counter past its range, so
the decode never returns (modelled as `none`) rather than reproducing
the segments. -/
theorem C8_counterexample :
    ([List.replicate 253 (0 : Nat)].length
        + ([List.replicate 253 (0 : Nat)].map List.length).sum ≤ 255)
    ∧ parse_improv_data_vec
        (build_rpc_response WIFI_SETTINGS [List.replicate 253 0] true) true
      = none
    ∧ (none : Option ImprovCommand)
        ≠ some ⟨WIFI_SETTINGS, [List.replicate 253 0]⟩ := by
  refine ⟨by decide, ?_, by decide⟩
  decide

/-- C8 amended: for every list of segments, each of byte length at

most 255 and with cumulative payload (segment count plus total
segment bytes) at most *253* (so the whole frame fits in 256 bytes),
encoding them as a Wi-Fi-settings or custom frame with a checksum and
decoding with checksum verification reproduces exactly the original
segments, in order, with identical byte content. -/
theorem C8_amended_roundtrip_segments (command : Nat)
    (datum : List (List Nat))
    (hcmd : command = WIFI_SETTINGS ∨ command = CUSTOM)
    (hfields : ∀ s ∈ datum, s.length ≤ 255)
    (htot : datum.length + (datum.map List.length).sum ≤ 253) :
    parse_improv_data_vec (build_rpc_response command datum true) true
      = some ⟨command, datum⟩ := by
  rw [parse_build_checksum_ok command datum htot]
  unfold parseSegmentsOrSingle
  have hcm : command % 256 = command := by
    rcases hcmd with h | h <;> rw [h] <;> rfl
  have h0 : (fun i => (build_rpc_response command datum true).getD i 0) 0
      = command := by
    show (build_rpc_response command datum true).getD 0 0 = command
    rw [build_getD_zero, hcm]
  simp only [h0]
  rw [if_pos hcmd]
  have hL : (build_rpc_response command datum true).length
      = 3 + datum.length + (datum.map List.length).sum :=
    build_length command datum true
  have hflen : (flatSegs datum).length
      = datum.length + (datum.map List.length).sum :=
    flatSegs_length datum
  have hag : ∀ j, j < (flatSegs datum).length →
      (fun i => (build_rpc_response command datum true).getD i 0) (2 + j)
        = (flatSegs datum).getD j 0 := by
    intro j hj
    exact build_getD_payload command datum true j hj
  rw [segLoop_consume
    (fun i => (build_rpc_response command datum true).getD i 0)
    ((build_rpc_response command datum true).length - 1) command datum 2 []
    hfields hag (by omega)]
  rw [segLoop]
  rw [dif_neg (by omega)]
  simp

/-- Witness for the amended C8: a Wi-Fi settings frame with segments

`[[104, 105], [33, 34, 35]]`. -/
theorem C8_witness :
    parse_improv_data_vec
        (build_rpc_response 1 [[104, 105], [33, 34, 35]] true) true
      = some ⟨1, [[104, 105], [33, 34, 35]]⟩ :=
  C8_amended_roundtrip_segments 1 [[104, 105], [33, 34, 35]]
    (Or.inl rfl) (by decide) (by decide)

end Improv
